import Mathlib

/-!
Shallow embedding of `src/midi2lrc.py` (a MIDI → LRC lyric converter) and
proofs about its core pipeline: tempo-map construction, tick→seconds
conversion, text classification, syllable grouping and LRC timestamp
formatting.

Modelling conventions:
* Python `str` values are modelled as `List Char`; the byte payload of a
  SysEx event as `List ℕ`.
* Python floats are modelled as `ℚ` (the spec treats the arithmetic as
  exact; rounding happens only in `format_lrc_time`).
* Character-class predicates (`isspace`, `islower`, `isupper`, `isalnum`)
  follow Python's `str` semantics restricted to the Latin-1 range, which is
  the repertoire produced by the script's `latin1` byte decoding.
-/

/-- Python `str.isspace` on the Latin-1 range: tab, LF, VT, FF, CR,
FS/GS/RS/US, space, NEL (U+0085) and NBSP (U+00A0). -/
def pyIsSpace (c : Char) : Bool :=
  [9, 10, 11, 12, 13, 28, 29, 30, 31, 32, 133, 160].contains c.toNat

/-- Python `str.islower` on the Latin-1 range. -/
def pyIsLower (c : Char) : Bool :=
  (97 ≤ c.toNat && c.toNat ≤ 122) || c.toNat = 170 || c.toNat = 181 ||
    c.toNat = 186 || (223 ≤ c.toNat && c.toNat ≤ 246) ||
    (248 ≤ c.toNat && c.toNat ≤ 255)

/-- Python `str.isupper` on the Latin-1 range. -/
def pyIsUpper (c : Char) : Bool :=
  (65 ≤ c.toNat && c.toNat ≤ 90) || (192 ≤ c.toNat && c.toNat ≤ 214) ||
    (216 ≤ c.toNat && c.toNat ≤ 222)

/-- Python `str.isalnum` on the Latin-1 range: decimal digits, letters
(per `pyIsLower`/`pyIsUpper`), superscripts ¹²³ and fractions ¼½¾. -/
def pyIsAlnum (c : Char) : Bool :=
  (48 ≤ c.toNat && c.toNat ≤ 57) || pyIsLower c || pyIsUpper c ||
    c.toNat = 178 || c.toNat = 179 || c.toNat = 185 ||
    c.toNat = 188 || c.toNat = 189 || c.toNat = 190

/-- Python `str.strip()`: remove whitespace from both ends. -/
def pyStrip (s : List Char) : List Char :=
  ((s.dropWhile pyIsSpace).reverse.dropWhile pyIsSpace).reverse

/-- Python `str.count(pat)` for a non-empty `pat`: number of
non-overlapping occurrences, scanning left to right.  The `fuel` argument
(instantiated with the length of the scanned string) makes the recursion
structural; each step consumes at least one character. -/
def countOccAux (pat : List Char) : ℕ → List Char → ℕ
  | 0, _ => 0
  | _, [] => 0
  | fuel + 1, c :: rest =>
    if pat.isPrefixOf (c :: rest) then
      1 + countOccAux pat fuel ((c :: rest).drop pat.length)
    else
      countOccAux pat fuel rest

/-- Python `clean.count(prefix)` (the prefixes used are non-empty). -/
def countOcc (pat s : List Char) : ℕ := countOccAux pat s.length s

/-- One step of `re.split(r'[\s\-\~@]+', ...)`: `reSplitGo fuel s cur`
accumulates the current field in `cur` (reversed) and emits a field at
every maximal separator run.  `fuel` (instantiated with the length of `s`)
makes the recursion structural. -/
def reSplitGo (sep : Char → Bool) : ℕ → List Char → List Char → List (List Char)
  | 0, _, cur => [cur.reverse]
  | _ + 1, [], cur => [cur.reverse]
  | fuel + 1, c :: rest, cur =>
    if sep c then cur.reverse :: reSplitGo sep fuel (rest.dropWhile sep) []
    else reSplitGo sep fuel rest (c :: cur)

/-- The separator class of `re.split(r'[\s\-\~@]+', ...)`. -/
def fragSep (c : Char) : Bool := pyIsSpace c || c = '-' || c = '~' || c = '@'

/-- `re.split(r'[\s\-\~@]+', s)`: fields between maximal separator runs,
with empty fields at the ends when `s` starts/ends with a separator. -/
def reSplit (s : List Char) : List (List Char) := reSplitGo fragSep s.length s []

/-- The fixed control-code prefix list of the script. -/
def control_prefixes : List (List Char) :=
  [['C', 'L'], ['C', 's', 'P'], ['C', '@'], ['C', 'L', 'X'], ['C', 'L', 'Z'], ['C', 'P']]

/-- `is_control_character` (midi2lrc.py:86-110): empty/whitespace-only
text, `---` separators, and control prefixes with no alphanumeric
remainder are classified as noise. -/
def is_control_character (text : List Char) : Bool :=
  if text.isEmpty || (pyStrip text).isEmpty then true
  else
    let cleaned := pyStrip text
    if (['-', '-', '-'] : List Char).isPrefixOf cleaned then true
    else if control_prefixes.any (fun p =>
        p.isPrefixOf cleaned && !((cleaned.drop p.length).any pyIsAlnum)) then true
    else false

/-- `is_real_text` (midi2lrc.py:357-398): the post-grouping "looks like
real text" classifier. -/
def is_real_text (text : List Char) : Bool :=
  let clean := pyStrip text
  if clean.length < 2 then false
  else if (['-', '-', '-'] : List Char).isPrefixOf clean then false
  else if control_prefixes.any (fun p =>
      p.isPrefixOf clean && decide (2 ≤ countOcc p clean)) then false
  else
    let fragments := reSplit clean
    let short_fragments := fragments.filter (fun f => !f.isEmpty && f.length ≤ 3)
    let long_fragments := fragments.filter (fun f => !f.isEmpty && 3 < f.length)
    if 0 < short_fragments.length && long_fragments.length = 0 then false
    else if fragments.any (fun f => 4 ≤ f.length && f.any pyIsLower) then true
    else if 3 ≤ (clean.filter pyIsLower).length && clean.contains ' ' then true
    else false

/-- A MIDI track message, reduced to the fields the script reads:
the delta time and the event-type payloads it dispatches on. -/
inductive MidiMsg where
  | set_tempo (time tempo : ℕ)
  | lyric (time : ℕ) (text : List Char)
  | textMeta (time : ℕ) (text : List Char)
  | sysex (time : ℕ) (data : List ℕ)
  | track_name (time : ℕ) (name : List Char)
  | otherMsg (time : ℕ)
deriving DecidableEq

/-- The delta time (`msg.time`) carried by every message. -/
def MidiMsg.time : MidiMsg → ℕ
  | .set_tempo t _ => t
  | .lyric t _ => t
  | .textMeta t _ => t
  | .sysex t _ => t
  | .track_name t _ => t
  | .otherMsg t => t

/-- One track's `(absoluteTick, tempo)` pairs: the per-track loop of
`build_tempo_map` (midi2lrc.py:36-41) with its running absolute-tick
counter. -/
def track_tempo_events : List MidiMsg → ℕ → List (ℕ × ℕ)
  | [], _ => []
  | m :: rest, abs_tick =>
    let a := abs_tick + m.time
    match m with
    | .set_tempo _ tempo => (a, tempo) :: track_tempo_events rest a
    | _ => track_tempo_events rest a

/-- The pooled tempo events: the default `(0, 500000)` seed followed by
every track's tempo events in track order. -/
def tempo_pool (tracks : List (List MidiMsg)) : List (ℕ × ℕ) :=
  (0, 500000) :: tracks.foldr (fun tr acc => track_tempo_events tr 0 ++ acc) []

/-- Ordering of pooled entries by tick (`key=lambda x: x[0]`). -/
def keyLe (a b : ℕ × ℕ) : Prop := a.1 ≤ b.1

instance : DecidableRel keyLe := fun a b => inferInstanceAs (Decidable (a.1 ≤ b.1))

instance : IsTotal (ℕ × ℕ) keyLe := ⟨fun a b => Nat.le_total a.1 b.1⟩

instance : IsTrans (ℕ × ℕ) keyLe := ⟨fun _ _ _ h h' => Nat.le_trans h h'⟩

/-- Python's stable `list.sort(key=lambda x: x[0])`, modelled by stable
insertion sort on the tick key. -/
def sort_pool (tracks : List (List MidiMsg)) : List (ℕ × ℕ) :=
  List.insertionSort keyLe (tempo_pool tracks)

/-- The duplicate-tick collapsing loop of `build_tempo_map`
(midi2lrc.py:45-52): among adjacent entries with equal tick, the later
one overwrites the earlier (`cleaned[-1] = (t, tempo)`). -/
def collapse : List (ℕ × ℕ) → List (ℕ × ℕ)
  | [] => []
  | [p] => [p]
  | p :: q :: rest => if p.1 = q.1 then collapse (q :: rest) else p :: collapse (q :: rest)

/-- `build_tempo_map` (midi2lrc.py:27-54): pool, stable-sort by tick,
collapse duplicate ticks.  (`ticks_per_beat` is returned separately by the
script and passed around unchanged; it is a separate argument here.) -/
def build_tempo_map (tracks : List (List MidiMsg)) : List (ℕ × ℕ) :=
  collapse (sort_pool tracks)

/-- The loop of `ticks_to_seconds` (midi2lrc.py:66-83) over the tail of
the tempo map, carrying the accumulated seconds, the last breakpoint tick
and the last tempo. -/
def tts_go (tick tpb : ℕ) : List (ℕ × ℕ) → ℚ → ℕ → ℕ → ℚ
  | [], seconds, last_tick, last_tempo =>
    seconds + (((tick : ℚ) - (last_tick : ℚ)) / (tpb : ℚ)) * ((last_tempo : ℚ) / 1000000)
  | (tempo_tick, tempo) :: rest, seconds, last_tick, last_tempo =>
    if tick ≤ tempo_tick then
      seconds + (((tick : ℚ) - (last_tick : ℚ)) / (tpb : ℚ)) * ((last_tempo : ℚ) / 1000000)
    else
      tts_go tick tpb rest
        (seconds + (((tempo_tick : ℚ) - (last_tick : ℚ)) / (tpb : ℚ)) * ((last_tempo : ℚ) / 1000000))
        tempo_tick tempo

/-- `ticks_to_seconds` (midi2lrc.py:57-83).  The script indexes
`tempo_map[0]` unconditionally; the maps it is called with are built by
`build_tempo_map` and are never empty, so the `[]` case is junk. -/
def ticks_to_seconds (tick : ℕ) (tempo_map : List (ℕ × ℕ)) (ticks_per_beat : ℕ) : ℚ :=
  match tempo_map with
  | [] => 0
  | (_, t0) :: rest => tts_go tick ticks_per_beat rest 0 0 t0

/-- Floor of a rational, computed from its normalised representation
(floor division of numerator by denominator). -/
def qfloor (q : ℚ) : ℤ := Int.fdiv q.num q.den

/-- Python `int(...)` on a float: truncation toward zero. -/
def pyint (q : ℚ) : ℤ := if 0 ≤ q then qfloor q else -qfloor (-q)

/-- Python `round(...)` to an integer: round half to even. -/
def pyround (q : ℚ) : ℤ :=
  let f := qfloor q
  let r := q - (f : ℚ)
  if r < 1/2 then f
  else if 1/2 < r then f + 1
  else if f % 2 = 0 then f else f + 1

/-- `m = int(seconds // 60)` (midi2lrc.py:150); float floor-division
produces an integral float, so `int` of it is that integer. -/
def py_m (seconds : ℚ) : ℤ := pyint ((qfloor (seconds / 60) : ℤ) : ℚ)

/-- `s = int(seconds % 60)` (midi2lrc.py:151); Python float `%` is
`seconds - 60 * floor(seconds / 60)`. -/
def py_s (seconds : ℚ) : ℤ := pyint (seconds - 60 * ((qfloor (seconds / 60) : ℤ) : ℚ))

/-- `hs = int(round((seconds - int(seconds)) * 100))` (midi2lrc.py:152). -/
def py_hs (seconds : ℚ) : ℤ := pyround ((seconds - (pyint seconds : ℚ)) * 100)

/-- The rounding-carry correction of `format_lrc_time`
(midi2lrc.py:153-159). -/
def lrc_carry (m s hs : ℤ) : ℤ × ℤ × ℤ :=
  if hs = 100 then
    if s + 1 = 60 then (m + 1, 0, 0) else (m, s + 1, 0)
  else (m, s, hs)

/-- Python `f"{n:02d}"` for the non-negative field values produced here. -/
def pad2 (n : ℤ) : List Char :=
  if 0 ≤ n && n < 10 then '0' :: (toString n).toList else (toString n).toList

/-- Rendering `f"[{m:02d}:{s:02d}.{hs:02d}]"` (midi2lrc.py:160). -/
def render_lrc : ℤ × ℤ × ℤ → List Char
  | (m, s, hs) => '[' :: pad2 m ++ ':' :: pad2 s ++ '.' :: pad2 hs ++ [']']

/-- `format_lrc_time` (midi2lrc.py:149-160). -/
def format_lrc_time (seconds : ℚ) : List Char :=
  render_lrc (lrc_carry (py_m seconds) (py_s seconds) (py_hs seconds))

/-- The sentence terminators `('.', '!', '?')` of the grouper. -/
def sentence_terminators : List Char := ['.', '!', '?']

/-- `prev_text.endswith(('.', '!', '?'))`. -/
def ends_with_terminator (s : List Char) : Bool :=
  match s.getLast? with
  | some c => sentence_terminators.contains c
  | none => false

/-- The merge decision of `group_syllables_by_time` (midi2lrc.py:190-206)
for a candidate event `(time, text)` against the last event
`(prevTime, prevRawText)` of the current group. -/
def should_group (threshold prevTime : ℚ) (prevRawText : List Char)
    (time : ℚ) (text : List Char) : Bool :=
  let time_diff := time - prevTime
  let prev_text := pyStrip prevRawText
  if time_diff < threshold then
    if ends_with_terminator prev_text then false
    else if (match text.head? with | some c => pyIsUpper c | none => false) &&
        !prev_text.isEmpty &&
        (match prev_text.getLast? with
         | some c => sentence_terminators.contains c
         | none => false) then false
    else true
  else false

/-- Closing a group (midi2lrc.py:211-214 and 221-224): concatenate the
fragments with no separator, keep the entry only when the combined text is
not whitespace-only, anchor it at the group's first time.  `groupRev` is
the current group in reverse order (most recent fragment first). -/
def close_group (curTime : ℚ) (groupRev : List (ℚ × List Char))
    (grouped : List (ℚ × List Char)) : List (ℚ × List Char) :=
  let combined := (groupRev.reverse.map Prod.snd).flatten
  if (pyStrip combined).isEmpty then grouped else grouped ++ [(curTime, combined)]

/-- The main loop of `group_syllables_by_time` (midi2lrc.py:184-224).
The current group is carried as its most recent fragment `glast` plus the
earlier fragments in reverse order `gRev`, which keeps the group non-empty
by construction, as in the script. -/
def group_go (threshold : ℚ) : List (ℚ × List Char) → (ℚ × List Char) →
    List (ℚ × List Char) → ℚ → List (ℚ × List Char) → List (ℚ × List Char)
  | [], glast, gRev, curTime, grouped => close_group curTime (glast :: gRev) grouped
  | (time, text) :: rest, glast, gRev, curTime, grouped =>
    if text.isEmpty || (pyStrip text).isEmpty then
      group_go threshold rest glast gRev curTime grouped
    else if should_group threshold glast.1 glast.2 time text then
      group_go threshold rest (time, text) (glast :: gRev) curTime grouped
    else
      group_go threshold rest (time, text) [] time
        (close_group curTime (glast :: gRev) grouped)

/-- `group_syllables_by_time` (midi2lrc.py:163-230). -/
def group_syllables_by_time (events : List (ℚ × List Char)) (threshold : ℚ) :
    List (ℚ × List Char) :=
  match events with
  | [] => []
  | e :: rest => group_go threshold rest e [] e.1 []

/-- The configured source track name (`TRACK_NAME`, midi2lrc.py:21). -/
def TRACK_NAME : List Char := "SysEx-Daten".toList

/-- The configured grouping threshold (`TIME_THRESHOLD`, midi2lrc.py:22),
0.5 seconds. -/
def TIME_THRESHOLD : ℚ := 1/2

/-- Whether a message is a `track_name` meta event whose name equals the
configured `TRACK_NAME` (midi2lrc.py:318). -/
def is_target_name (m : MidiMsg) : Bool :=
  match m with
  | .track_name _ n => n = TRACK_NAME
  | _ => false

/-- The track-selection loop of `midi_to_lrc` (midi2lrc.py:315-323):
the first track containing a matching track-name event. -/
def find_target_track (tracks : List (List MidiMsg)) : Option (List MidiMsg) :=
  tracks.find? (fun tr => tr.any is_target_name)

/-- `latin1` decoding: each byte maps to the code point of the same value
(it never fails, so `errors="ignore"` drops nothing). -/
def decode_latin1 (data : List ℕ) : List Char := data.map Char.ofNat

/-- The loop of `extract_lyrics_from_track` (midi2lrc.py:123-144):
accumulate the absolute tick, pick text from lyric/text meta events and
from stripped SysEx payloads, drop control characters, and pair the
survivors with their time in seconds. -/
def extract_go (tempo_map : List (ℕ × ℕ)) (tpb : ℕ) :
    List MidiMsg → ℕ → List (ℚ × List Char)
  | [], _ => []
  | m :: rest, abs_tick =>
    let a := abs_tick + m.time
    let text? : Option (List Char) :=
      match m with
      | .lyric _ t => some t
      | .textMeta _ t => some t
      | .sysex _ data =>
        let decoded := pyStrip (decode_latin1 data)
        if decoded.isEmpty then none else some decoded
      | _ => none
    match text? with
    | some t =>
      if !t.isEmpty && !is_control_character t then
        (ticks_to_seconds a tempo_map tpb, t) :: extract_go tempo_map tpb rest a
      else extract_go tempo_map tpb rest a
    | none => extract_go tempo_map tpb rest a

/-- `extract_lyrics_from_track` (midi2lrc.py:113-146). -/
def extract_lyrics_from_track (track : List MidiMsg) (tempo_map : List (ℕ × ℕ))
    (tpb : ℕ) : List (ℚ × List Char) :=
  extract_go tempo_map tpb track 0

/-- Ordering of lyric events by time (`events.sort(key=lambda x: x[0])`,
midi2lrc.py:332). -/
def timeLe (a b : ℚ × List Char) : Prop := a.1 ≤ b.1

instance : DecidableRel timeLe := fun a b => inferInstanceAs (Decidable (a.1 ≤ b.1))

/-- The `first_real_text_idx` scan of `midi_to_lrc` (midi2lrc.py:354,
400-404): the index of the first entry satisfying `is_real_text`, or the
default 0 when no entry does. -/
def first_real_text_idx (events : List (ℚ × List Char)) : ℕ :=
  match events.findIdx? (fun p => is_real_text p.2) with
  | some i => i
  | none => 0

/-- `filtered_events = events[first_real_text_idx:]` (midi2lrc.py:407). -/
def skip_leading_noise (events : List (ℚ × List Char)) : List (ℚ × List Char) :=
  events.drop (first_real_text_idx events)

/-- Python `str.split()` with no arguments: the non-empty maximal runs of
non-whitespace characters (no empty fields). -/
def pySplitWs (s : List Char) : List (List Char) :=
  (reSplitGo pyIsSpace s.length s []).filter (fun f => !f.isEmpty)

/-- The per-line cleanup of the output loop (midi2lrc.py:420-424):
newlines become spaces, then whitespace runs collapse to single spaces. -/
def clean_line_text (text : List Char) : List Char :=
  let t1 := text.map (fun c => if c = '\n' || c = '\r' then ' ' else c)
  List.intercalate [' '] (pySplitWs t1)

/-- The output-writing loop of `midi_to_lrc` (midi2lrc.py:414-431): one
`[mm:ss.cc]text` line per surviving entry, skipping entries whose text is
empty after stripping or after cleanup. -/
def write_lines : List (ℚ × List Char) → List (List Char)
  | [] => []
  | (t_sec, text) :: rest =>
    if text.isEmpty || (pyStrip text).isEmpty then write_lines rest
    else
      let clean_text := clean_line_text text
      if clean_text.isEmpty then write_lines rest
      else (format_lrc_time t_sec ++ clean_text) :: write_lines rest

/-- The error message raised when no track matches (midi2lrc.py:326). -/
def TRACK_NOT_FOUND_MSG : List Char :=
  "Keine Spur mit Namen SysEx-Daten gefunden.".toList

/-- `midi_to_lrc` (midi2lrc.py:307-434) with the LLM correction disabled
(the default `USE_LLM_CORRECTION=false` path).  File I/O is modelled by
the returned value: `Except.error` models the raised `ValueError` (no
output file content is produced), `Except.ok` carries the written lines. -/
def midi_to_lrc (tracks : List (List MidiMsg)) (ticks_per_beat : ℕ) :
    Except (List Char) (List (List Char)) :=
  let tempo_map := build_tempo_map tracks
  match find_target_track tracks with
  | none => Except.error TRACK_NOT_FOUND_MSG
  | some tr =>
    let events := extract_lyrics_from_track tr tempo_map ticks_per_beat
    let sorted := List.insertionSort timeLe events
    let grouped := group_syllables_by_time sorted TIME_THRESHOLD
    let filtered := skip_leading_noise grouped
    Except.ok (write_lines filtered)

/-- Strict ordering of breakpoints by tick. -/
def keyLt (a b : ℕ × ℕ) : Prop := a.1 < b.1

/-- The seconds contributed by one tempo segment
`(fromTick, toTick, tempo)`. -/
def segment_seconds (tpb : ℕ) (seg : ℕ × ℕ × ℕ) : ℚ :=
  (((seg.2.1 : ℚ) - (seg.1 : ℚ)) / (tpb : ℚ)) * ((seg.2.2 : ℚ) / 1000000)

/-- The tempo segments walked by `ticks_to_seconds` from state
`(last_tick, last_tempo)` through the breakpoints `bps` up to `endTick`:
each breakpoint closes a full segment, and the final segment runs from the
last breakpoint to `endTick` at the last tempo. -/
def segments_up_to : ℕ → ℕ → List (ℕ × ℕ) → ℕ → List (ℕ × ℕ × ℕ)
  | lt, ltp, [], e => [(lt, e, ltp)]
  | lt, ltp, (t, tp) :: rest, e => (lt, t, ltp) :: segments_up_to t tp rest e

/-- The LRC formatter as the specification words it: `mm` is
`floor(seconds / 60)`, `ss` is `floor(seconds mod 60)`, `cc` is the
rounding of the fractional part times 100, followed by the same
carry correction and padding. -/
def format_lrc_time_spec (seconds : ℚ) : List Char :=
  render_lrc (lrc_carry
    (qfloor (seconds / 60))
    (qfloor (seconds - 60 * ((qfloor (seconds / 60) : ℤ) : ℚ)))
    (pyround ((seconds - ((qfloor seconds : ℤ) : ℚ)) * 100)))

/-! ### Evaluation helpers -/

/-- Evaluation helper: compute `qfloor` from the numerator and denominator
of a rational literal. -/
theorem qfloor_eval {q : ℚ} {n : ℤ} {d : ℕ} {v : ℤ} (hn : q.num = n)
    (hd : q.den = d) (hv : Int.fdiv n (d : ℤ) = v) : qfloor q = v := by
  rw [qfloor, hn, hd, hv]

/-- Evaluation helper: `pyint` on a non-negative rational is `qfloor`. -/
theorem pyint_eval {q : ℚ} {v : ℤ} (h0 : 0 ≤ q) (h : qfloor q = v) :
    pyint q = v := by
  rw [pyint, if_pos h0, h]

/-! ### Tempo-map structure lemmas -/

/-- Key equality as a `Bool`, true case. -/
theorem key_beq_true {a : ℕ × ℕ} {t : ℕ} (h : a.1 = t) : (a.1 == t) = true := by
  simp [h]

/-- Key equality as a `Bool`, false case. -/
theorem key_beq_false {a : ℕ × ℕ} {t : ℕ} (h : ¬a.1 = t) : (a.1 == t) = false := by
  simp [h]

/-- Filtering a stable `orderedInsert` by an exact tick key: the inserted
element lands in front of the equal-key entries already present. -/
theorem orderedInsert_filter_key (t : ℕ) (a : ℕ × ℕ) :
    ∀ s : List (ℕ × ℕ),
      (List.orderedInsert keyLe a s).filter (fun p => p.1 == t) =
        if a.1 = t then a :: s.filter (fun p => p.1 == t)
        else s.filter (fun p => p.1 == t)
  | [] => by
    by_cases h : a.1 = t
    · simp [List.orderedInsert, List.filter, h, key_beq_true h]
    · simp [List.orderedInsert, List.filter, h, key_beq_false h]
  | b :: s => by
    by_cases hle : keyLe a b
    · by_cases h : a.1 = t
      · simp [List.orderedInsert, if_pos hle, List.filter, h, key_beq_true h]
      · simp [List.orderedInsert, if_pos hle, List.filter, h, key_beq_false h]
    · have hlt : b.1 < a.1 := Nat.lt_of_not_le hle
      by_cases h : a.1 = t
      · have hbt : ¬b.1 = t := by omega
        simp [List.orderedInsert, if_neg hle, List.filter, h, key_beq_true h,
          key_beq_false hbt, orderedInsert_filter_key t a s]
      · by_cases hbt : b.1 = t
        · simp [List.orderedInsert, if_neg hle, List.filter, h, key_beq_false h,
            key_beq_true hbt, orderedInsert_filter_key t a s]
        · simp [List.orderedInsert, if_neg hle, List.filter, h, key_beq_false h,
            key_beq_false hbt, orderedInsert_filter_key t a s]

/-- Stability of the modelled sort: filtering by an exact tick key
commutes with `insertionSort`, so entries sharing a tick keep their
original relative order. -/
theorem insertionSort_filter_key (t : ℕ) :
    ∀ l : List (ℕ × ℕ),
      (List.insertionSort keyLe l).filter (fun p => p.1 == t) =
        l.filter (fun p => p.1 == t)
  | [] => rfl
  | a :: l => by
    rw [List.insertionSort, orderedInsert_filter_key t a,
      insertionSort_filter_key t l]
    by_cases h : a.1 = t
    · simp [List.filter, h, key_beq_true h]
    · simp [List.filter, h, key_beq_false h]

/-- Everything in `collapse l` comes from `l`. -/
theorem collapse_subset : ∀ l : List (ℕ × ℕ), ∀ x ∈ collapse l, x ∈ l
  | [] => by simp [collapse]
  | [p] => by simp [collapse]
  | p :: q :: rest => by
    intro x hx
    rw [collapse] at hx
    by_cases h : p.1 = q.1
    · rw [if_pos h] at hx
      exact List.mem_cons_of_mem p (collapse_subset (q :: rest) x hx)
    · rw [if_neg h] at hx
      rcases List.mem_cons.mp hx with hp | hx
    
      · exact hp ▸ List.mem_cons_self p (q :: rest)
      · exact List.mem_cons_of_mem p (collapse_subset (q :: rest) x hx)

/-- `collapse` keeps the head tick of a non-empty list. -/
theorem collapse_head_key : ∀ (p : ℕ × ℕ) (l : List (ℕ × ℕ)),
    ∃ tp rest, collapse (p :: l) = (p.1, tp) :: rest
  | p, [] => ⟨p.2, [], by rw [collapse]⟩
  | p, q :: l => by
    by_cases h : p.1 = q.1
    · obtain ⟨tp, rest, hq⟩ := collapse_head_key q l
      exact ⟨tp, rest, by rw [collapse, if_pos h, hq, h]⟩
    · exact ⟨p.2, collapse (q :: l), by rw [collapse, if_neg h]⟩

/-- In a `keyLe`-chain, the head's tick bounds every later tick. -/
theorem chain_le_key_all {q : ℕ × ℕ} {rest : List (ℕ × ℕ)}
    (h : List.Chain' keyLe (q :: rest)) : ∀ x ∈ rest, q.1 ≤ x.1 := by
  rw [List.chain'_iff_pairwise] at h
  exact fun x hx => (List.pairwise_cons.mp h).1 x hx

/-- `collapse` of a `≤`-sorted list is `<`-sorted: the surviving tick
values are strictly increasing. -/
theorem collapse_chain_lt : ∀ l : List (ℕ × ℕ),
    List.Chain' keyLe l → List.Chain' keyLt (collapse l)
  | [] => fun _ => List.chain'_nil
  | [p] => fun _ => List.chain'_singleton p
  | p :: q :: rest => fun h => by
    obtain ⟨hpq, htail⟩ := List.chain'_cons.mp h
    by_cases hk : p.1 = q.1
    · rw [collapse, if_pos hk]
      exact collapse_chain_lt (q :: rest) htail
    · rw [collapse, if_neg hk]
      obtain ⟨tp, rest', hhead⟩ := collapse_head_key q rest
      refine List.chain'_cons'.mpr ⟨?_, collapse_chain_lt (q :: rest) htail⟩
      intro y hy
      rw [hhead] at hy
      simp only [List.head?_cons, Option.mem_def, Option.some.injEq] at hy
      subst hy
      exact Nat.lt_of_le_of_ne hpq hk

/-- On a `≤`-sorted list, `collapse` keeps, for each tick value, exactly
the last entry carrying that tick. -/
theorem collapse_filter_getLast (t : ℕ) : ∀ l : List (ℕ × ℕ),
    List.Chain' keyLe l →
      (collapse l).filter (fun p => p.1 == t) =
        ((l.filter (fun p => p.1 == t)).getLast?).toList
  | [] => fun _ => rfl
  | [p] => fun _ => by
    by_cases h : p.1 = t
    · simp [collapse, List.filter, h, key_beq_true h]
    · simp [collapse, List.filter, h, key_beq_false h]
  | p :: q :: rest => fun h => by
    obtain ⟨hpq, htail⟩ := List.chain'_cons.mp h
    have ih := collapse_filter_getLast t (q :: rest) htail
    by_cases hk : p.1 = q.1
    · rw [collapse, if_pos hk]
      by_cases ht : p.1 = t
      · have hqt : q.1 = t := hk ▸ ht
        have hq : (List.filter (fun p => p.1 == t) (q :: rest)) =
            q :: List.filter (fun p => p.1 == t) rest := by
          simp [List.filter, key_beq_true hqt]
        rw [ih]
        have : List.filter (fun p => p.1 == t) (p :: q :: rest) =
            p :: q :: List.filter (fun p => p.1 == t) rest := by
          simp [List.filter, key_beq_true ht, key_beq_true hqt]
        rw [this, List.getLast?_cons_cons, ← hq]
      · have : List.filter (fun p => p.1 == t) (p :: q :: rest) =
            List.filter (fun p => p.1 == t) (q :: rest) := by
          simp [List.filter, key_beq_false ht]
        rw [ih, this]
    · rw [collapse, if_neg hk]
      have hlt : p.1 < q.1 := Nat.lt_of_le_of_ne hpq hk
      by_cases ht : p.1 = t
      · have hnil : List.filter (fun p => p.1 == t) (q :: rest) = [] := by
          rw [List.filter_eq_nil_iff]
          intro x hx
          have : q.1 ≤ x.1 := by
            rcases List.mem_cons.mp hx with rfl | hx'
            · exact Nat.le_refl _
            · exact chain_le_key_all htail x hx'
          simp only [beq_iff_eq]
          omega
        have hfc : List.filter (fun p => p.1 == t) (p :: collapse (q :: rest)) =
            p :: List.filter (fun p => p.1 == t) (collapse (q :: rest)) := by
          simp [List.filter, key_beq_true ht]
        rw [hfc, ih, hnil]
        have : List.filter (fun p => p.1 == t) (p :: q :: rest) =
            p :: List.filter (fun p => p.1 == t) (q :: rest) := by
          simp [List.filter, key_beq_true ht]
        rw [this, hnil]
        rfl
      · have hfc : List.filter (fun p => p.1 == t) (p :: collapse (q :: rest)) =
            List.filter (fun p => p.1 == t) (collapse (q :: rest)) := by
          simp [List.filter, key_beq_false ht]
        have hfc2 : List.filter (fun p => p.1 == t) (p :: q :: rest) =
            List.filter (fun p => p.1 == t) (q :: rest) := by
          simp [List.filter, key_beq_false ht]
        rw [hfc, ih, hfc2]

/-- The stable-sorted pool is `≤`-sorted (as a chain). -/
theorem sort_pool_chain_le (tracks : List (List MidiMsg)) :
    List.Chain' keyLe (sort_pool tracks) :=
  (List.sorted_insertionSort keyLe (tempo_pool tracks)).chain'

/-- The stable-sorted pool starts with a tick-0 entry (the seeded default
guarantees a tick-0 element, and 0 is minimal). -/
theorem sort_pool_head (tracks : List (List MidiMsg)) :
    ∃ tp rest, sort_pool tracks = (0, tp) :: rest := by
  have hperm := List.perm_insertionSort keyLe (tempo_pool tracks)
  have hmem : ((0, 500000) : ℕ × ℕ) ∈ sort_pool tracks :=
    hperm.mem_iff.mpr (List.mem_cons_self _ _)
  have hsorted := sort_pool_chain_le tracks
  match hs : sort_pool tracks with
  | [] => rw [hs] at hmem; exact absurd hmem (List.not_mem_nil _)
  | s :: rest =>
    rw [hs] at hmem hsorted
    have hzero : s.1 = 0 := by
      rcases List.mem_cons.mp hmem with h | h
      · rw [← h]
      · exact Nat.le_antisymm (chain_le_key_all hsorted _ h) (Nat.zero_le _)
    exact ⟨s.2, rest, by rw [← hzero]⟩

/-- `build_tempo_map` always starts with a tick-0 breakpoint. -/
theorem build_tempo_map_head (tracks : List (List MidiMsg)) :
    ∃ tp rest, build_tempo_map tracks = (0, tp) :: rest := by
  obtain ⟨tp, rest, hs⟩ := sort_pool_head tracks
  obtain ⟨tp', rest', hc⟩ := collapse_head_key (0, tp) rest
  exact ⟨tp', rest', by rw [build_tempo_map, hs, hc]⟩

/-- The breakpoint ticks of `build_tempo_map` are strictly increasing. -/
theorem build_tempo_map_chain_lt (tracks : List (List MidiMsg)) :
    List.Chain' keyLt (build_tempo_map tracks) :=
  collapse_chain_lt (sort_pool tracks) (sort_pool_chain_le tracks)

/-! ### Tick-to-seconds lemmas -/

/-- A `tts_go` run adds a non-negative amount to its accumulator when the
breakpoint ticks ahead of it are increasing and start above `last_tick`. -/
theorem tts_go_ge (tick tpb : ℕ) (htpb : 0 < tpb) :
    ∀ (rest : List (ℕ × ℕ)) (s : ℚ) (lt ltp : ℕ), lt ≤ tick →
      List.Chain' (· < ·) (lt :: rest.map Prod.fst) →
      s ≤ tts_go tick tpb rest s lt ltp
  | [], s, lt, ltp, hle, _ => by
    rw [tts_go]
    have h1 : (0 : ℚ) ≤ (tick : ℚ) - (lt : ℚ) := by
      rw [sub_nonneg]
      exact_mod_cast hle
    have h2 : (0 : ℚ) ≤ ((tick : ℚ) - (lt : ℚ)) / (tpb : ℚ) * ((ltp : ℚ) / 1000000) := by
      apply mul_nonneg
      · exact div_nonneg h1 (by positivity)
      · positivity
    linarith
  | (tt, tp) :: rest, s, lt, ltp, hle, hch => by
    rw [tts_go]
    obtain ⟨hlt, hch'⟩ := List.chain'_cons.mp hch
    by_cases hc : tick ≤ tt
    · rw [if_pos hc]
      have h1 : (0 : ℚ) ≤ (tick : ℚ) - (lt : ℚ) := by
        rw [sub_nonneg]
        exact_mod_cast hle
      have h2 : (0 : ℚ) ≤ ((tick : ℚ) - (lt : ℚ)) / (tpb : ℚ) * ((ltp : ℚ) / 1000000) := by
        apply mul_nonneg
        · exact div_nonneg h1 (by positivity)
        · positivity
      linarith
    · rw [if_neg hc]
      have htt : tt ≤ tick := Nat.le_of_lt (Nat.lt_of_not_le hc)
      have hstep : s ≤ s + ((tt : ℚ) - (lt : ℚ)) / (tpb : ℚ) * ((ltp : ℚ) / 1000000) := by
        have h1 : (0 : ℚ) ≤ (tt : ℚ) - (lt : ℚ) := by
          rw [sub_nonneg]
          exact_mod_cast Nat.le_of_lt hlt
        have h2 : (0 : ℚ) ≤ ((tt : ℚ) - (lt : ℚ)) / (tpb : ℚ) * ((ltp : ℚ) / 1000000) := by
          apply mul_nonneg
          · exact div_nonneg h1 (by positivity)
          · positivity
        linarith
      exact le_trans hstep (tts_go_ge tick tpb htpb rest _ tt tp htt hch')

/-- `tts_go` is monotone in the queried tick. -/
theorem tts_go_mono (tpb : ℕ) (htpb : 0 < tpb) :
    ∀ (rest : List (ℕ × ℕ)) (a b : ℕ) (s : ℚ) (lt ltp : ℕ), a ≤ b → lt ≤ a →
      List.Chain' (· < ·) (lt :: rest.map Prod.fst) →
      tts_go a tpb rest s lt ltp ≤ tts_go b tpb rest s lt ltp
  | [], a, b, s, lt, ltp, hab, _, _ => by
    rw [tts_go, tts_go]
    have h1 : (a : ℚ) - (lt : ℚ) ≤ (b : ℚ) - (lt : ℚ) := by
      have : (a : ℚ) ≤ (b : ℚ) := by exact_mod_cast hab
      linarith
    have h2 : ((a : ℚ) - (lt : ℚ)) / (tpb : ℚ) * ((ltp : ℚ) / 1000000) ≤
        ((b : ℚ) - (lt : ℚ)) / (tpb : ℚ) * ((ltp : ℚ) / 1000000) := by
      apply mul_le_mul_of_nonneg_right
      · apply div_le_div_of_nonneg_right h1
        positivity
      · positivity
    linarith
  | (tt, tp) :: rest, a, b, s, lt, ltp, hab, hlta, hch => by
    obtain ⟨hlt, hch'⟩ := List.chain'_cons.mp hch
    rw [tts_go, tts_go]
    by_cases ha : a ≤ tt
    · by_cases hb : b ≤ tt
      · rw [if_pos ha, if_pos hb]
        have h1 : (a : ℚ) - (lt : ℚ) ≤ (b : ℚ) - (lt : ℚ) := by
          have : (a : ℚ) ≤ (b : ℚ) := by exact_mod_cast hab
          linarith
        have h2 : ((a : ℚ) - (lt : ℚ)) / (tpb : ℚ) * ((ltp : ℚ) / 1000000) ≤
            ((b : ℚ) - (lt : ℚ)) / (tpb : ℚ) * ((ltp : ℚ) / 1000000) := by
          apply mul_le_mul_of_nonneg_right
          · apply div_le_div_of_nonneg_right h1
            positivity
          · positivity
        linarith
      · rw [if_pos ha, if_neg hb]
        have htb : tt ≤ b := Nat.le_of_lt (Nat.lt_of_not_le hb)
        have hstep : s + ((a : ℚ) - (lt : ℚ)) / (tpb : ℚ) * ((ltp : ℚ) / 1000000) ≤
            s + ((tt : ℚ) - (lt : ℚ)) / (tpb : ℚ) * ((ltp : ℚ) / 1000000) := by
          have h1 : (a : ℚ) - (lt : ℚ) ≤ (tt : ℚ) - (lt : ℚ) := by
            have : (a : ℚ) ≤ (tt : ℚ) := by exact_mod_cast ha
            linarith
          have h2 : ((a : ℚ) - (lt : ℚ)) / (tpb : ℚ) * ((ltp : ℚ) / 1000000) ≤
              ((tt : ℚ) - (lt : ℚ)) / (tpb : ℚ) * ((ltp : ℚ) / 1000000) := by
            apply mul_le_mul_of_nonneg_right
            · apply div_le_div_of_nonneg_right h1
              positivity
            · positivity
          linarith
        exact le_trans hstep (tts_go_ge b tpb htpb rest _ tt tp htb hch')
    · have hb : ¬ b ≤ tt := fun hc => ha (Nat.le_trans hab hc)
      rw [if_neg ha, if_neg hb]
      have hta : tt ≤ a := Nat.le_of_lt (Nat.lt_of_not_le ha)
      exact tts_go_mono tpb htpb rest a b _ tt tp hab hta hch'

/-- At tick 0 with initial state `(0, tempo)`, `tts_go` returns 0. -/
theorem tts_go_zero (tpb : ℕ) (rest : List (ℕ × ℕ)) (ltp : ℕ) :
    tts_go 0 tpb rest 0 0 ltp = 0 := by
  match rest with
  | [] => rw [tts_go]; push_cast; ring
  | (tt, tp) :: rest' =>
    rw [tts_go, if_pos (Nat.zero_le tt)]
    push_cast
    ring

/-- When every remaining breakpoint tick is strictly below the queried
tick, `tts_go` accumulates exactly the segment sum up to the tick. -/
theorem tts_go_all_lt (tick tpb : ℕ) :
    ∀ (pre : List (ℕ × ℕ)) (s : ℚ) (lt ltp : ℕ), (∀ p ∈ pre, p.1 < tick) →
      tts_go tick tpb pre s lt ltp =
        s + ((segments_up_to lt ltp pre tick).map (segment_seconds tpb)).sum
  | [], s, lt, ltp, _ => by
    rw [tts_go]
    simp [segments_up_to, segment_seconds]
  | (t, tp) :: pre', s, lt, ltp, h => by
    have ht : t < tick := h (t, tp) (List.mem_cons_self _ _)
    rw [tts_go, if_neg (by omega)]
    rw [tts_go_all_lt tick tpb pre' _ t tp (fun p hp => h p (List.mem_cons_of_mem _ hp))]
    simp only [segments_up_to, List.map_cons, List.sum_cons, segment_seconds]
    ring

/-- A query tick equal to a breakpoint tick is answered before that
breakpoint's tempo is installed: the run on `pre ++ (tick, x) :: post`
never looks at `x` or `post`. -/
theorem tts_go_breakpoint (tick tpb x : ℕ) (post : List (ℕ × ℕ)) :
    ∀ (pre : List (ℕ × ℕ)) (s : ℚ) (lt ltp : ℕ), (∀ p ∈ pre, p.1 < tick) →
      tts_go tick tpb (pre ++ (tick, x) :: post) s lt ltp =
        s + ((segments_up_to lt ltp pre tick).map (segment_seconds tpb)).sum
  | [], s, lt, ltp, _ => by
    rw [List.nil_append, tts_go, if_pos (Nat.le_refl tick)]
    simp [segments_up_to, segment_seconds]
  | (t, tp) :: pre', s, lt, ltp, h => by
    have ht : t < tick := h (t, tp) (List.mem_cons_self _ _)
    rw [List.cons_append, tts_go, if_neg (by omega)]
    rw [tts_go_breakpoint tick tpb x post pre' _ t tp
      (fun p hp => h p (List.mem_cons_of_mem _ hp))]
    simp only [segments_up_to, List.map_cons, List.sum_cons, segment_seconds]
    ring

/-! ### Grouping and formatting support lemmas -/

/-- `prev_text and prev_text[-1] in '.!?'` coincides with
`prev_text.endswith(('.', '!', '?'))`. -/
theorem ewt_and_nonempty (s : List Char) :
    (!s.isEmpty &&
      (match s.getLast? with
       | some c => sentence_terminators.contains c
       | none => false)) = ends_with_terminator s := by
  match s with
  | [] => rfl
  | a :: l =>
    rw [ends_with_terminator]
    simp [List.isEmpty_cons]

/-- The merge decision of the grouper, characterised: a non-empty new
fragment is merged exactly when the time gap is under the threshold, the
previous trimmed fragment does not end in a sentence terminator, and not
(the new fragment starts uppercase and the previous ends in a
terminator). -/
theorem should_group_iff (threshold prevTime : ℚ) (prevText : List Char)
    (time : ℚ) (text : List Char) (hne : text ≠ []) :
    should_group threshold prevTime prevText time text = true ↔
      (time - prevTime < threshold ∧
        ends_with_terminator (pyStrip prevText) = false ∧
        ¬(pyIsUpper (text.headD 'x') = true ∧
          ends_with_terminator (pyStrip prevText) = true)) := by
  obtain ⟨c, cs, rfl⟩ : ∃ c cs, text = c :: cs := by
    match text with
    | [] => exact absurd rfl hne
    | c :: cs => exact ⟨c, cs, rfl⟩
  simp only [should_group, List.head?_cons, List.headD_cons]
  by_cases hd : time - prevTime < threshold
  · rw [if_pos hd]
    by_cases hewt : ends_with_terminator (pyStrip prevText) = true
    · rw [if_pos hewt]
      simp [hewt]
    · rw [if_neg hewt]
      rw [Bool.not_eq_true] at hewt
      have hcond : (pyIsUpper c && !(pyStrip prevText).isEmpty &&
          (match (pyStrip prevText).getLast? with
           | some c => sentence_terminators.contains c
           | none => false)) = false := by
        rw [Bool.and_assoc, ewt_and_nonempty, hewt, Bool.and_false]
      simp only [hcond]
      simp [hd, hewt]
  · rw [if_neg hd]
    simp [hd]

/-- Whitespace-only events after the first are invisible to the grouper
loop: filtering them out of the remaining input does not change the
result. -/
theorem group_go_filter_ws (threshold : ℚ) :
    ∀ (rest : List (ℚ × List Char)) (glast : ℚ × List Char)
      (gRev : List (ℚ × List Char)) (ct : ℚ) (acc : List (ℚ × List Char)),
      group_go threshold rest glast gRev ct acc =
        group_go threshold
          (rest.filter (fun p => !(p.2.isEmpty || (pyStrip p.2).isEmpty)))
          glast gRev ct acc
  | [], _, _, _, _ => rfl
  | (t, x) :: rest, glast, gRev, ct, acc => by
    by_cases hx : (x.isEmpty || (pyStrip x).isEmpty) = true
    · rw [List.filter_cons_of_neg (by simp [hx]), group_go, if_pos hx]
      exact group_go_filter_ws threshold rest glast gRev ct acc
    · rw [List.filter_cons_of_pos (by simp [hx])]
      rw [group_go, group_go, if_neg hx, if_neg hx]
      by_cases hsg : should_group threshold glast.1 glast.2 t x = true
      · rw [if_pos hsg, if_pos hsg]
        exact group_go_filter_ws threshold rest (t, x) (glast :: gRev) ct acc
      · rw [if_neg hsg, if_neg hsg]
        exact group_go_filter_ws threshold rest (t, x) [] t
          (close_group ct (glast :: gRev) acc)

/-- The floor `qfloor` agrees with the mathematical floor on `ℚ`. -/
theorem qfloor_eq_floor (q : ℚ) : qfloor q = ⌊q⌋ := by
  rw [Rat.floor_def, qfloor]
  exact Int.fdiv_eq_ediv q.num (Int.natCast_nonneg q.den)

/-- `qfloor` of an integer is that integer. -/
theorem qfloor_intCast (n : ℤ) : qfloor ((n : ℤ) : ℚ) = n := by
  rw [qfloor_eq_floor]
  exact Int.floor_intCast n

/-- `qfloor` of a non-negative rational is non-negative. -/
theorem qfloor_nonneg {q : ℚ} (h : 0 ≤ q) : 0 ≤ qfloor q := by
  rw [qfloor_eq_floor]
  exact Int.floor_nonneg.mpr h

/-- `qfloor` is a lower bound. -/
theorem qfloor_le (q : ℚ) : ((qfloor q : ℤ) : ℚ) ≤ q := by
  rw [qfloor_eq_floor]
  exact Int.floor_le q

/-- For non-negative input the implementation and the specification
formula agree (truncation and floor coincide on the non-negative
intermediate values). -/
theorem format_lrc_time_eq_spec (s : ℚ) (hs : 0 ≤ s) :
    format_lrc_time s = format_lrc_time_spec s := by
  have hdiv : (0 : ℚ) ≤ s / 60 := by positivity
  have h1 : py_m s = qfloor (s / 60) := by
    rw [py_m, pyint, if_pos (by exact_mod_cast qfloor_nonneg hdiv), qfloor_intCast]
  have hmod : (0 : ℚ) ≤ s - 60 * ((qfloor (s / 60) : ℤ) : ℚ) := by
    have hle : ((qfloor (s / 60) : ℤ) : ℚ) ≤ s / 60 := qfloor_le (s / 60)
    have h60 : (60 : ℚ) * ((qfloor (s / 60) : ℤ) : ℚ) ≤ 60 * (s / 60) := by
      linarith
    have hcan : (60 : ℚ) * (s / 60) = s := by
      field_simp
    linarith
  have h2 : py_s s = qfloor (s - 60 * ((qfloor (s / 60) : ℤ) : ℚ)) := by
    rw [py_s, pyint, if_pos hmod]
  have h3 : py_hs s = pyround ((s - ((qfloor s : ℤ) : ℚ)) * 100) := by
    rw [py_hs, pyint, if_pos hs]
  rw [format_lrc_time, format_lrc_time_spec, h1, h2, h3]

/-- The "looks like real text" acceptance rule, with the short-fragment
gate made explicit: trimmed length ≥ 2, no leading `---`, no control
prefix occurring twice, at least one fragment of length ≥ 4, at least
three lowercase letters and a space in the trimmed text force
acceptance. -/
theorem is_real_text_accepts (text : List Char)
    (h2 : 2 ≤ (pyStrip text).length)
    (h3 : (['-', '-', '-'] : List Char).isPrefixOf (pyStrip text) = false)
    (h4 : ∀ p ∈ control_prefixes, countOcc p (pyStrip text) < 2)
    (h5 : 3 ≤ ((pyStrip text).filter pyIsLower).length)
    (h6 : (pyStrip text).contains ' ' = true)
    (h7 : ∃ f ∈ reSplit (pyStrip text), 4 ≤ f.length) :
    is_real_text text = true := by
  simp only [is_real_text]
  rw [if_neg (by omega : ¬(pyStrip text).length < 2)]
  rw [if_neg (by simp [h3] :
    ¬(['-', '-', '-'] : List Char).isPrefixOf (pyStrip text) = true)]
  have hany : ¬(control_prefixes.any (fun p =>
      p.isPrefixOf (pyStrip text) && decide (2 ≤ countOcc p (pyStrip text))) = true) := by
    intro hcontra
    rw [List.any_eq_true] at hcontra
    obtain ⟨p, hp, hpred⟩ := hcontra
    rw [Bool.and_eq_true, decide_eq_true_eq] at hpred
    exact absurd hpred.2 (by have := h4 p hp; omega)
  rw [if_neg hany]
  have hlong : ¬(((reSplit (pyStrip text)).filter
      (fun f => !f.isEmpty && decide (3 < f.length))).length = 0) := by
    obtain ⟨f, hf, hlen⟩ := h7
    have hfne : ¬f.isEmpty = true := by
      intro hfe
      rw [List.isEmpty_iff] at hfe
      rw [hfe] at hlen
      simp at hlen
    have hmem : f ∈ (reSplit (pyStrip text)).filter
        (fun f => !f.isEmpty && decide (3 < f.length)) := by
      refine List.mem_filter.mpr ⟨hf, ?_⟩
      simp only [Bool.and_eq_true, Bool.not_eq_true', decide_eq_true_eq]
      exact ⟨Bool.eq_false_iff.mpr hfne, by omega⟩
    intro hlen0
    rw [List.length_eq_zero] at hlen0
    rw [hlen0] at hmem
    exact List.not_mem_nil f hmem
  rw [if_neg (by simp only [Bool.and_eq_true, decide_eq_true_eq, not_and]; exact fun _ => hlong)]
  by_cases hw : (reSplit (pyStrip text)).any
      (fun f => decide (4 ≤ f.length) && f.any pyIsLower) = true
  · rw [if_pos hw]
  · rw [if_neg hw]
    rw [if_pos (by simp only [Bool.and_eq_true, decide_eq_true_eq]; exact ⟨h5, h6⟩)]

/-! ### Claims -/

/-- C1: the syllable grouper merges a subsequent (non-empty) event into
the current group exactly when the time difference to the last event in
the group is strictly under the threshold, the previous fragment's
trimmed text does not end in '.', '!' or '?', and not (the new fragment
starts with an uppercase letter and the previous fragment ends in a
sentence terminator); a closed group's text is the separator-free
concatenation of its fragments anchored at the first fragment's time,
as the two concrete examples from the specification show. -/
theorem grouper_merge_rule :
    (∀ (threshold prevTime : ℚ) (prevText : List Char) (time : ℚ)
        (text : List Char), text ≠ [] →
        (should_group threshold prevTime prevText time text = true ↔
          (time - prevTime < threshold ∧
            ends_with_terminator (pyStrip prevText) = false ∧
            ¬(pyIsUpper (text.headD 'x') = true ∧
              ends_with_terminator (pyStrip prevText) = true)))) ∧
    group_syllables_by_time
        [(0, ['H', 'e', 'l']), (1/5, ['l', 'o', ' ']), (9/10, ['W', 'o', 'r', 'l', 'd'])]
        (1/2) =
      [(0, ['H', 'e', 'l', 'l', 'o', ' ']), (9/10, ['W', 'o', 'r', 'l', 'd'])] ∧
    group_syllables_by_time [(0, ['Y', 'e', 's', '.']), (1/10, ['N', 'o'])] (1/2) =
      [(0, ['Y', 'e', 's', '.']), (1/10, ['N', 'o'])] := by
  refine ⟨should_group_iff, ?_, ?_⟩
  · have s1 : should_group (1/2) 0 ['H', 'e', 'l'] (1/5) ['l', 'o', ' '] = true := by
      have h : ((1 : ℚ)/5 - 0) < 1/2 := by norm_num
      simp only [should_group]
      rw [if_pos h]
      decide
    have s2 : should_group (1/2) (1/5) ['l', 'o', ' '] (9/10)
        ['W', 'o', 'r', 'l', 'd'] = false := by
      have h : ¬ (((9 : ℚ)/10 - 1/5) < 1/2) := by norm_num
      simp only [should_group]
      rw [if_neg h]
    have c1 : (pyStrip ['l', 'o', ' ']).isEmpty = false := by decide
    have d1 : (pyStrip ['H', 'e', 'l', 'l', 'o', ' ']).isEmpty = false := by decide
    have d2 : (pyStrip ['W', 'o', 'r', 'l', 'd']).isEmpty = false := by decide
    simp only [group_syllables_by_time, group_go, c1, s1, s2, close_group,
      List.reverse_cons, List.reverse_nil, List.nil_append, List.cons_append,
      List.map_cons, List.map_nil, List.flatten, List.append_nil, d1, d2,
      List.isEmpty_cons, List.isEmpty_nil, Bool.or_false, Bool.false_or,
      Bool.false_eq_true, if_false, if_true, ite_true, ite_false]
  · have s1 : should_group (1/2) 0 ['Y', 'e', 's', '.'] (1/10) ['N', 'o'] = false := by
      have h : ((1 : ℚ)/10 - 0) < 1/2 := by norm_num
      simp only [should_group]
      rw [if_pos h]
      decide
    have c1 : (pyStrip ['N', 'o']).isEmpty = false := by decide
    have d1 : (pyStrip ['Y', 'e', 's', '.']).isEmpty = false := by decide
    simp only [group_syllables_by_time, group_go, c1, s1, close_group,
      List.reverse_cons, List.reverse_nil, List.nil_append, List.cons_append,
      List.map_cons, List.map_nil, List.flatten, List.append_nil, d1,
      List.isEmpty_cons, List.isEmpty_nil, Bool.or_false, Bool.false_or,
      Bool.false_eq_true, if_false, if_true, ite_true, ite_false]

/-- Witness for C1: the merge-rule characterisation applied at a concrete
input. -/
theorem grouper_merge_rule_witness :
    should_group (1/2) 0 ['H', 'e', 'l'] (1/5) ['l', 'o', ' '] = true ↔
      ((1 : ℚ)/5 - 0 < 1/2 ∧
        ends_with_terminator (pyStrip ['H', 'e', 'l']) = false ∧
        ¬(pyIsUpper ((['l', 'o', ' '] : List Char).headD 'x') = true ∧
          ends_with_terminator (pyStrip ['H', 'e', 'l']) = true)) :=
  grouper_merge_rule.1 (1/2) 0 ['H', 'e', 'l'] (1/5) ['l', 'o', ' '] (by decide)

/-- C2: for every tempo map built by `build_tempo_map` and every positive
`ticks_per_beat`, `ticks_to_seconds` sends tick 0 to 0 and is monotone
non-decreasing in the tick argument. -/
theorem ticks_to_seconds_monotone (tracks : List (List MidiMsg)) (tpb : ℕ)
    (htpb : 0 < tpb) :
    ticks_to_seconds 0 (build_tempo_map tracks) tpb = 0 ∧
    ∀ a b : ℕ, a ≤ b →
      ticks_to_seconds a (build_tempo_map tracks) tpb ≤
        ticks_to_seconds b (build_tempo_map tracks) tpb := by
  obtain ⟨tp, rest, hm⟩ := build_tempo_map_head tracks
  have hch : List.Chain' (· < ·) ((0 : ℕ) :: rest.map Prod.fst) := by
    have h1 := build_tempo_map_chain_lt tracks
    rw [hm] at h1
    have h2 : List.Chain' (fun a b : ℕ × ℕ => a.1 < b.1) ((0, tp) :: rest) := h1
    have h3 := (List.chain'_map (Prod.fst : ℕ × ℕ → ℕ)).mpr h2
    simpa using h3
  constructor
  · rw [hm, ticks_to_seconds]
    exact tts_go_zero tpb rest tp
  · intro a b hab
    rw [hm, ticks_to_seconds, ticks_to_seconds]
    exact tts_go_mono tpb htpb rest a b 0 0 tp hab (Nat.zero_le a) hch

/-- Witness for C2 at the empty track list (default map) with
`ticks_per_beat = 480`. -/
theorem ticks_to_seconds_monotone_witness :
    ticks_to_seconds 0 (build_tempo_map []) 480 = 0 ∧
    ticks_to_seconds 100 (build_tempo_map []) 480 ≤
      ticks_to_seconds 200 (build_tempo_map []) 480 :=
  ⟨(ticks_to_seconds_monotone [] 480 (by decide)).1,
   (ticks_to_seconds_monotone [] 480 (by decide)).2 100 200 (by decide)⟩

/-- C3: a query landing exactly on a breakpoint tick is charged entirely
to the earlier segments (the `<=` comparison): it equals the sum of the
full earlier segments up to that tick, independently of the tempo stored
at the breakpoint and of all later breakpoints, and it equals the value
under the map truncated before the breakpoint — the new tempo takes
effect only strictly after its own tick. -/
theorem ticks_to_seconds_breakpoint_boundary (t0 tp0 : ℕ) (pre : List (ℕ × ℕ))
    (bt x : ℕ) (post : List (ℕ × ℕ)) (tpb : ℕ)
    (hpre : ∀ p ∈ pre, p.1 < bt) :
    ticks_to_seconds bt (((t0, tp0) :: pre) ++ (bt, x) :: post) tpb =
      ((segments_up_to 0 tp0 pre bt).map (segment_seconds tpb)).sum ∧
    ticks_to_seconds bt (((t0, tp0) :: pre) ++ (bt, x) :: post) tpb =
      ticks_to_seconds bt ((t0, tp0) :: pre) tpb := by
  have h1 : ticks_to_seconds bt (((t0, tp0) :: pre) ++ (bt, x) :: post) tpb =
      0 + ((segments_up_to 0 tp0 pre bt).map (segment_seconds tpb)).sum := by
    rw [List.cons_append, ticks_to_seconds]
    exact tts_go_breakpoint bt tpb x post pre 0 0 tp0 hpre
  have h2 : ticks_to_seconds bt ((t0, tp0) :: pre) tpb =
      0 + ((segments_up_to 0 tp0 pre bt).map (segment_seconds tpb)).sum := by
    rw [ticks_to_seconds]
    exact tts_go_all_lt bt tpb pre 0 0 tp0 hpre
  rw [h1, h2]
  simp

/-- Witness for C3: the boundary query at tick 480 of the map
`[(0, 500000), (480, 250000)]` ignores the new tempo 250000. -/
theorem ticks_to_seconds_breakpoint_boundary_witness :
    ticks_to_seconds 480 [(0, 500000), (480, 250000)] 480 =
      ((segments_up_to 0 500000 [] 480).map (segment_seconds 480)).sum ∧
    ticks_to_seconds 480 [(0, 500000), (480, 250000)] 480 =
      ticks_to_seconds 480 [(0, 500000)] 480 :=
  ticks_to_seconds_breakpoint_boundary 0 500000 [] 480 250000 [] 480
    (fun p hp => absurd hp (List.not_mem_nil p))

/-- C4: for non-negative seconds the formatter computes
`mm = floor(seconds/60)`, `ss = floor(seconds mod 60)`,
`cc = round(frac * 100)` with the carry correction and two-digit padding,
and the two specification examples hold. -/
theorem format_lrc_time_spec_correct :
    (∀ s : ℚ, 0 ≤ s → format_lrc_time s = format_lrc_time_spec s) ∧
    format_lrc_time (59996/1000) = "[01:00.00]".toList ∧
    format_lrc_time 0 = "[00:00.00]".toList := by
  refine ⟨format_lrc_time_eq_spec, ?_, ?_⟩
  · have h60 : ((59996 : ℚ)/1000)/60 = 14999/15000 := by norm_num
    have hq1 : qfloor ((14999 : ℚ)/15000) = 0 :=
      qfloor_eval (n := 14999) (d := 15000) (by norm_num) (by norm_num) (by decide)
    have hq0 : qfloor (((0 : ℤ) : ℚ)) = 0 :=
      qfloor_eval (n := 0) (d := 1) (by norm_num) (by norm_num) (by decide)
    have hm : py_m (59996/1000) = 0 := by
      rw [py_m, h60, hq1]
      exact pyint_eval (by norm_num) hq0
    have hs : py_s (59996/1000) = 59 := by
      rw [py_s, h60, hq1]
      have e : (59996 : ℚ)/1000 - 60 * ((0 : ℤ) : ℚ) = 59996/1000 := by norm_num
      rw [e]
      exact pyint_eval (by norm_num)
        (qfloor_eval (n := 14999) (d := 250) (by norm_num) (by norm_num) (by decide))
    have hpi : pyint ((59996 : ℚ)/1000) = 59 :=
      pyint_eval (by norm_num)
        (qfloor_eval (n := 14999) (d := 250) (by norm_num) (by norm_num) (by decide))
    have hhs : py_hs (59996/1000) = 100 := by
      rw [py_hs, hpi]
      have e : ((59996 : ℚ)/1000 - ((59 : ℤ) : ℚ)) * 100 = 498/5 := by norm_num
      rw [e]
      simp only [pyround]
      rw [qfloor_eval (n := 498) (d := 5) (v := 99) (by norm_num) (by norm_num) (by decide)]
      norm_num
    rw [format_lrc_time, hm, hs, hhs]
    decide
  · have h0 : qfloor (0 : ℚ) = 0 :=
      qfloor_eval (n := 0) (d := 1) (by norm_num) (by norm_num) (by decide)
    have hm : py_m 0 = 0 := by
      rw [py_m]
      have e : (0 : ℚ)/60 = 0 := by norm_num
      rw [e, h0]
      exact pyint_eval (by norm_num)
        (qfloor_eval (n := 0) (d := 1) (by norm_num) (by norm_num) (by decide))
    have hs : py_s 0 = 0 := by
      rw [py_s]
      have e : (0 : ℚ)/60 = 0 := by norm_num
      rw [e, h0]
      have e2 : (0 : ℚ) - 60 * ((0 : ℤ) : ℚ) = 0 := by norm_num
      rw [e2]
      exact pyint_eval (by norm_num) h0
    have hpi : pyint (0 : ℚ) = 0 := pyint_eval (by norm_num) h0
    have hhs : py_hs 0 = 0 := by
      rw [py_hs, hpi]
      have e : ((0 : ℚ) - ((0 : ℤ) : ℚ)) * 100 = 0 := by norm_num
      rw [e]
      simp only [pyround]
      rw [h0]
      norm_num
    rw [format_lrc_time, hm, hs, hhs]
    decide

/-- Witness for C4: the refinement applied at the concrete input 0. -/
theorem format_lrc_time_spec_correct_witness :
    format_lrc_time 0 = format_lrc_time_spec 0 :=
  format_lrc_time_spec_correct.1 0 le_rfl

/-- C5: `build_tempo_map` produces strictly increasing tick values; for
every tick value the surviving entry is exactly the last entry carrying
that tick in the stable-sorted pool (last write wins), the stable sort
preserving the pool order of equal-tick entries; and a file with zero
tracks yields the singleton default list. -/
theorem build_tempo_map_spec :
    (∀ tracks, List.Chain' keyLt (build_tempo_map tracks)) ∧
    (∀ tracks t, (build_tempo_map tracks).filter (fun p => p.1 == t) =
      (((sort_pool tracks).filter (fun p => p.1 == t)).getLast?).toList) ∧
    (∀ tracks t, (sort_pool tracks).filter (fun p => p.1 == t) =
      (tempo_pool tracks).filter (fun p => p.1 == t)) ∧
    build_tempo_map [] = [(0, 500000)] :=
  ⟨build_tempo_map_chain_lt,
   fun tracks t => collapse_filter_getLast t (sort_pool tracks) (sort_pool_chain_le tracks),
   fun tracks t => insertionSort_filter_key t (tempo_pool tracks),
   by decide⟩

/-- C6 counterexample: the string `"ab cd ef"` meets every condition of
the claim — length ≥ 2, no leading `---`, no control prefix occurring
twice or more, at least 3 lowercase letters, a space — yet `is_real_text`
rejects it, because the short-fragment gate (no fragment longer than 3
characters) fires first. -/
theorem is_real_text_counterexample :
    2 ≤ ("ab cd ef".toList).length ∧
    (['-', '-', '-'] : List Char).isPrefixOf ("ab cd ef".toList) = false ∧
    (∀ p ∈ control_prefixes, countOcc p ("ab cd ef".toList) < 2) ∧
    3 ≤ (("ab cd ef".toList).filter pyIsLower).length ∧
    ("ab cd ef".toList).contains ' ' = true ∧
    is_real_text ("ab cd ef".toList) = false := by decide

/-- Witness for the amended C6: `"hello world"` satisfies all hypotheses
(including the added fragment-length condition) and is accepted. -/
theorem is_real_text_accepts_witness :
    is_real_text "hello world".toList = true :=
  is_real_text_accepts "hello world".toList (by decide) (by decide)
    (by decide) (by decide) (by decide)
    ⟨['h', 'e', 'l', 'l', 'o'], by decide, by decide⟩

/-- C7 counterexample: a whitespace-only FIRST event is not skipped — it
anchors the first group and contributes its text and its time — so the
output differs from grouping the input with all whitespace-only fragments
removed. -/
theorem grouper_first_event_counterexample :
    group_syllables_by_time [(0, [' ']), (1/10, ['H', 'i'])] (1/2) ≠
      group_syllables_by_time
        (([(0, [' ']), (1/10, ['H', 'i'])] : List (ℚ × List Char)).filter
          (fun p => !(p.2.isEmpty || (pyStrip p.2).isEmpty))) (1/2) := by
  have s1 : should_group (1/2) 0 [' '] (1/10) ['H', 'i'] = true := by
    have h : ((1 : ℚ)/10 - 0) < 1/2 := by norm_num
    simp only [should_group]
    rw [if_pos h]
    decide
  have c1 : (pyStrip ['H', 'i']).isEmpty = false := by decide
  have d1 : (pyStrip [' ', 'H', 'i']).isEmpty = false := by decide
  have hL : group_syllables_by_time [(0, [' ']), (1/10, ['H', 'i'])] (1/2) =
      [(0, [' ', 'H', 'i'])] := by
    simp only [group_syllables_by_time, group_go, c1, s1, close_group,
      List.reverse_cons, List.reverse_nil, List.nil_append, List.cons_append,
      List.map_cons, List.map_nil, List.flatten, List.append_nil, d1,
      List.isEmpty_cons, List.isEmpty_nil, Bool.or_false, Bool.false_or,
      Bool.false_eq_true, if_false, if_true, ite_true, ite_false]
  have hR : (([(0, [' ']), (1/10, ['H', 'i'])] : List (ℚ × List Char)).filter
      (fun p => !(p.2.isEmpty || (pyStrip p.2).isEmpty))) =
      [((1 : ℚ)/10, ['H', 'i'])] := by
    rw [List.filter_cons_of_neg (by decide), List.filter_cons_of_pos (by decide),
      List.filter_nil]
  have hR2 : group_syllables_by_time [((1 : ℚ)/10, ['H', 'i'])] (1/2) =
      [((1 : ℚ)/10, ['H', 'i'])] := by
    simp only [group_syllables_by_time, group_go, close_group,
      List.reverse_cons, List.reverse_nil, List.nil_append, List.cons_append,
      List.map_cons, List.map_nil, List.flatten, List.append_nil, c1,
      List.isEmpty_cons, List.isEmpty_nil, Bool.or_false, Bool.false_or,
      Bool.false_eq_true, if_false, if_true, ite_true, ite_false]
  rw [hL, hR, hR2]
  intro hcontra
  rw [List.cons.injEq] at hcontra
  rw [Prod.mk.injEq] at hcontra
  exact absurd hcontra.1.1 (by norm_num)

/-- C7 amended: empty or whitespace-only fragments AFTER the first event
are skipped (they neither extend a group nor start one), so the output
equals grouping the input with the whitespace-only fragments after the
first removed; the first event always anchors its group, even when
whitespace-only. -/
theorem grouper_skips_ws_after_first (events : List (ℚ × List Char))
    (threshold : ℚ) :
    group_syllables_by_time events threshold =
      group_syllables_by_time
        (match events with
         | [] => []
         | e :: rest =>
           e :: rest.filter (fun p => !(p.2.isEmpty || (pyStrip p.2).isEmpty)))
        threshold := by
  match events with
  | [] => rfl
  | e :: rest =>
    simp only [group_syllables_by_time]
    exact group_go_filter_ws threshold rest e [] e.1 []

/-- C8: every text whose trimmed form starts with one of the control
prefixes and has no alphanumeric character after that prefix is
classified as noise, `"CL@@"` is excluded and `"CLever"` retained. -/
theorem control_character_rule :
    (∀ (text : List Char), ∀ p ∈ control_prefixes,
        p.isPrefixOf (pyStrip text) = true →
        ((pyStrip text).drop p.length).any pyIsAlnum = false →
        is_control_character text = true) ∧
    is_control_character "CL@@".toList = true ∧
    is_control_character "CLever".toList = false := by
  refine ⟨?_, by decide, by decide⟩
  intro text p hp hpre halnum
  simp only [is_control_character]
  by_cases hempty : (text.isEmpty || (pyStrip text).isEmpty) = true
  · rw [if_pos hempty]
  · rw [if_neg hempty]
    by_cases hdash : (['-', '-', '-'] : List Char).isPrefixOf (pyStrip text) = true
    · rw [if_pos hdash]
    · rw [if_neg hdash]
      rw [if_pos (List.any_eq_true.mpr
        ⟨p, hp, by rw [Bool.and_eq_true, halnum]; exact ⟨hpre, rfl⟩⟩)]

/-- Witness for C8: the noise rule applied to `"CL@@"` with prefix
`"CL"`. -/
theorem control_character_rule_witness :
    is_control_character "CL@@".toList = true :=
  control_character_rule.1 "CL@@".toList ['C', 'L'] (by decide) (by decide)
    (by decide)

/-- C9: when no track carries a track-name event equal to the configured
name, the conversion stops with the "no matching track" error and
produces no output lines (the `Except.error` models the `ValueError`
raised before the output file is opened). -/
theorem no_matching_track_error (tracks : List (List MidiMsg)) (tpb : ℕ)
    (h : ∀ tr ∈ tracks, ∀ m ∈ tr, is_target_name m = false) :
    midi_to_lrc tracks tpb = Except.error TRACK_NOT_FOUND_MSG := by
  have hfind : find_target_track tracks = none := by
    rw [find_target_track, List.find?_eq_none]
    intro tr htr hany
    rw [List.any_eq_true] at hany
    obtain ⟨m, hm, htn⟩ := hany
    rw [h tr htr m hm] at htn
    exact Bool.false_ne_true htn
  simp only [midi_to_lrc, hfind]

/-- Witness for C9: a file whose only track has no track-name event. -/
theorem no_matching_track_error_witness :
    midi_to_lrc [[MidiMsg.otherMsg 5]] 480 = Except.error TRACK_NOT_FOUND_MSG :=
  no_matching_track_error [[MidiMsg.otherMsg 5]] 480 (by decide)

/-- C10: when no grouped entry satisfies `is_real_text`, the leading-noise
skip keeps its default index 0 and retains the whole sequence. -/
theorem no_real_text_keeps_all (events : List (ℚ × List Char))
    (h : ∀ p ∈ events, is_real_text p.2 = false) :
    first_real_text_idx events = 0 ∧ skip_leading_noise events = events := by
  have hidx : events.findIdx? (fun p => is_real_text p.2) = none := by
    rw [List.findIdx?_eq_none_iff]
    exact h
  constructor
  · simp only [first_real_text_idx, hidx]
  · simp only [skip_leading_noise, first_real_text_idx, hidx, List.drop_zero]

/-- Witness for C10: a sequence whose single entry is the `---` separator
(never real text) is fully retained. -/
theorem no_real_text_keeps_all_witness :
    first_real_text_idx [((0 : ℚ), ['-', '-', '-'])] = 0 ∧
    skip_leading_noise [((0 : ℚ), ['-', '-', '-'])] = [((0 : ℚ), ['-', '-', '-'])] :=
  no_real_text_keeps_all [((0 : ℚ), ['-', '-', '-'])] (by decide)
